import Mathlib

/-!
Shallow embedding of the tic-tac-toe game engine (`game.py`):
the `TicTacToe` dataclass, its `make_move` transition, the win/draw
checks, and the heuristic `bot_move` selector.

Python exceptions (out-of-range list indexing) are modelled by `Option`:
`make_move` returns `none` exactly when the Python code would raise.
Mutation is modelled by explicit state passing: a method that mutates
`self` returns the new `Game`; `bot_move`, which never writes to `self`,
returns the unchanged `Game` alongside its result so the absence of side
effects is a provable statement. `random.shuffle` of the local corner and
edge lists is modelled by passing the shuffled lists as parameters,
constrained to be permutations of the originals.
-/

/-- `class Cell(Enum)`: EMPTY, X, O. -/
inductive Cell where
  | EMPTY : Cell
  | X : Cell
  | O : Cell
deriving DecidableEq, Repr

/-- The board: `list` of rows, each a `list` of cells (row-major 3×3). -/
abbrev Board := List (List Cell)

/-- `WIN_LINES`: all winning lines — rows, columns, diagonals. -/
def WIN_LINES : List (List (Nat × Nat)) :=
  [ [(0, 0), (0, 1), (0, 2)],
    [(1, 0), (1, 1), (1, 2)],
    [(2, 0), (2, 1), (2, 2)],
    [(0, 0), (1, 0), (2, 0)],
    [(0, 1), (1, 1), (2, 1)],
    [(0, 2), (1, 2), (2, 2)],
    [(0, 0), (1, 1), (2, 2)],
    [(0, 2), (1, 1), (2, 0)] ]

/-- `@dataclass class Player`. -/
structure Player where
  user_id : Int
  username : String
  symbol : Cell
deriving DecidableEq, Repr

/-- `@dataclass class TicTacToe` with its field defaults. -/
structure Game where
  board : Board
  player_x : Option Player := none
  player_o : Option Player := none
  current_turn : Cell := Cell.EMPTY
  is_vs_bot : Bool := false
  game_over : Bool := false
  winner : Option Cell := none
deriving DecidableEq, Repr

/-- `self.board[row][col]` as a read; `none` models a Python `IndexError`. -/
def boardGet (b : Board) (row col : Nat) : Option Cell :=
  (b[row]?).bind fun r => r[col]?

/-- Total read used where the surrounding code guarantees the indices are
in range (defaults to `EMPTY` out of range, a case the source never hits). -/
def cellAt (b : Board) (row col : Nat) : Cell :=
  (boardGet b row col).getD Cell.EMPTY

/-- `self.board[row][col] = v` (the write only happens after a successful
read of the same cell, so the out-of-range no-op of `List.set` is never hit). -/
def boardSet (b : Board) (row col : Nat) (v : Cell) : Board :=
  b.set row ((b.getD row []).set col v)

/-- The 3×3 empty board produced by the `board` field default factory. -/
def initialBoard : Board :=
  [ [Cell.EMPTY, Cell.EMPTY, Cell.EMPTY],
    [Cell.EMPTY, Cell.EMPTY, Cell.EMPTY],
    [Cell.EMPTY, Cell.EMPTY, Cell.EMPTY] ]

/-- A fresh `TicTacToe(...)` instance: empty board, X to move, not over.
Player bindings and the vs-bot flag are free, as the callers set them. -/
def mkFresh (px po : Option Player) (vb : Bool) : Game :=
  { board := initialBoard, player_x := px, player_o := po,
    current_turn := Cell.X, is_vs_bot := vb, game_over := false,
    winner := none }

/-- `TicTacToe._check_winner`: some line of `WIN_LINES` is all `cell`. -/
def check_winner (b : Board) (cell : Cell) : Bool :=
  WIN_LINES.any fun line => line.all fun p => cellAt b p.1 p.2 == cell

/-- `TicTacToe._check_draw`: all nine cells are filled. -/
def check_draw (b : Board) : Bool :=
  (List.range 3).all fun r => (List.range 3).all fun c =>
    cellAt b r c != Cell.EMPTY

/-- `TicTacToe.make_move`: the three rejection checks in source order, then
the write and the win/draw/turn-flip evaluation. Result `none` models an
uncaught `IndexError` from `self.board[row][col]`. -/
def make_move (g : Game) (row col : Nat) (player_cell : Cell) :
    Option (Bool × Game) :=
  if g.game_over then some (false, g)
  else
    match boardGet g.board row col with
    | none => none
    | some cell =>
      if cell != Cell.EMPTY then some (false, g)
      else if player_cell != g.current_turn then some (false, g)
      else
        let b := boardSet g.board row col player_cell
        if check_winner b player_cell then
          some (true, { g with board := b, game_over := true,
                               winner := some player_cell })
        else if check_draw b then
          some (true, { g with board := b, game_over := true,
                               winner := none })
        else
          some (true, { g with board := b,
                               current_turn :=
                                 if g.current_turn = Cell.X then Cell.O
                                 else Cell.X })

/-- Python's `list.index`: first index of `a`, `none` when absent. -/
def listIndex {α : Type} [BEq α] (a : α) : List α → Option Nat
  | [] => none
  | x :: xs => if x == a then some 0 else (listIndex a xs).map (· + 1)

/-- The body of the `for line in WIN_LINES` loop of `_find_winning_move`:
if the line holds exactly two `cell` marks and one empty, return the
coordinates of the empty slot (the local `cells_in_line` list is written
out in place). -/
def lineMove (b : Board) (cell : Cell) (line : List (Nat × Nat)) :
    Option (Nat × Nat) :=
  if (line.map fun p => cellAt b p.1 p.2).count cell = 2 ∧
      (line.map fun p => cellAt b p.1 p.2).count Cell.EMPTY = 1 then
    match listIndex Cell.EMPTY (line.map fun p => cellAt b p.1 p.2) with
    | some idx => line.get? idx
    | none => none
  else none

/-- `TicTacToe._find_winning_move`: the first line completion for `cell`. -/
def find_winning_move (b : Board) (cell : Cell) : Option (Nat × Nat) :=
  WIN_LINES.findSome? (lineMove b cell)

/-- The corner list of `bot_move` rule 4, in source order. -/
def corners : List (Nat × Nat) := [(0, 0), (0, 2), (2, 0), (2, 2)]

/-- The edge list of `bot_move` rule 5, in source order. -/
def edges : List (Nat × Nat) := [(0, 1), (1, 0), (1, 2), (2, 1)]

/-- `TicTacToe.bot_move`. `cornersShuffled` and `edgesShuffled` stand for
the locally shuffled copies of `corners` and `edges`; theorems constrain
them to permutations of the originals. The returned `Game` is the state
after the call (the method performs no writes, so every branch returns
`g` itself). -/
def bot_move (g : Game) (cornersShuffled edgesShuffled : List (Nat × Nat)) :
    Option (Nat × Nat) × Game :=
  if g.game_over || (g.current_turn != Cell.O) then (none, g)
  else
    match find_winning_move g.board Cell.O with
    | some move => (some move, g)
    | none =>
      match find_winning_move g.board Cell.X with
      | some move => (some move, g)
      | none =>
        if cellAt g.board 1 1 = Cell.EMPTY then (some (1, 1), g)
        else
          match cornersShuffled.find?
              (fun p => cellAt g.board p.1 p.2 == Cell.EMPTY) with
          | some p => (some p, g)
          | none =>
            match edgesShuffled.find?
                (fun p => cellAt g.board p.1 p.2 == Cell.EMPTY) with
            | some p => (some p, g)
            | none => (none, g)

/-- Well-formed board shape: 3 rows of 3 cells, as every board built by
the dataclass constructor is. -/
def WF (b : Board) : Prop :=
  b.length = 3 ∧ ∀ row ∈ b, row.length = 3

instance (b : Board) : Decidable (WF b) := by
  unfold WF; exact inferInstance

/-- Spec-level: mark `m` occupies all three cells of some winning line. -/
def LineWonBy (b : Board) (m : Cell) : Prop :=
  ∃ line ∈ WIN_LINES, ∀ p ∈ line, cellAt b p.1 p.2 = m

instance (b : Board) (m : Cell) : Decidable (LineWonBy b m) := by
  unfold LineWonBy; exact inferInstance

/-- Spec-level: some winning line is monochromatic in a non-empty mark. -/
def LineWonAny (b : Board) : Prop :=
  LineWonBy b Cell.X ∨ LineWonBy b Cell.O

instance (b : Board) : Decidable (LineWonAny b) := by
  unfold LineWonAny; exact inferInstance

/-- Spec-level: all nine cells are occupied. -/
def boardFull (b : Board) : Prop :=
  ∀ r < 3, ∀ c < 3, cellAt b r c ≠ Cell.EMPTY

instance (b : Board) : Decidable (boardFull b) := by
  unfold boardFull; exact inferInstance

/-- Number of cells of the board holding mark `m`. -/
def countMark (b : Board) (m : Cell) : Nat :=
  (b.map fun row => row.count m).sum

/-- Game states reachable from a fresh game by accepted moves. -/
inductive Reachable : Game → Prop where
  | fresh (px po : Option Player) (vb : Bool) : Reachable (mkFresh px po vb)
  | step (g g' : Game) (row col : Nat) (pc : Cell) : Reachable g →
      make_move g row col pc = some (true, g') → Reachable g'

/-- Invariant of reachable states: well-formed board, a real mark to move,
turn-consistent mark counts, no won line while in progress, and a terminal
bookkeeping that ties `winner` to an actually won line. -/
def GameInv (g : Game) : Prop :=
  WF g.board ∧
  (g.current_turn = Cell.X ∨ g.current_turn = Cell.O) ∧
  (g.game_over = false →
    ((g.current_turn = Cell.X ∧
        countMark g.board Cell.X = countMark g.board Cell.O) ∨
     (g.current_turn = Cell.O ∧
        countMark g.board Cell.X = countMark g.board Cell.O + 1)) ∧
    ¬ LineWonAny g.board ∧ ¬ boardFull g.board ∧ g.winner = none) ∧
  (g.game_over = true →
    (countMark g.board Cell.X = countMark g.board Cell.O ∨
     countMark g.board Cell.X = countMark g.board Cell.O + 1) ∧
    (∀ m, g.winner = some m →
        LineWonBy g.board m ∧ (m = Cell.X ∨ m = Cell.O)) ∧
    (g.winner = none → boardFull g.board ∧ ¬ LineWonAny g.board))

/-- The loop condition of `_find_winning_move`: the line holds exactly two
marks `m` and exactly one empty cell. -/
def twoOneEmpty (b : Board) (m : Cell) (line : List (Nat × Nat)) : Prop :=
  (line.map fun p => cellAt b p.1 p.2).count m = 2 ∧
  (line.map fun p => cellAt b p.1 p.2).count Cell.EMPTY = 1

instance (b : Board) (m : Cell) (line : List (Nat × Nat)) :
    Decidable (twoOneEmpty b m line) := by
  unfold twoOneEmpty; exact inferInstance

/-- The concrete game used to witness C4: a terminal drawn game. -/
def gameOverWitness : Game :=
  { board := initialBoard, current_turn := Cell.X, game_over := true,
    winner := none }

/-- The state after X plays (0,0) in a fresh game, witnessing C10. -/
def gameAfterX00 : Game :=
  { board := [ [Cell.X, Cell.EMPTY, Cell.EMPTY],
               [Cell.EMPTY, Cell.EMPTY, Cell.EMPTY],
               [Cell.EMPTY, Cell.EMPTY, Cell.EMPTY] ],
    current_turn := Cell.O }

/-- The state after X plays the centre of a fresh game, witnessing C2. -/
def gameAfterX11 : Game :=
  { board := [ [Cell.EMPTY, Cell.EMPTY, Cell.EMPTY],
               [Cell.EMPTY, Cell.X, Cell.EMPTY],
               [Cell.EMPTY, Cell.EMPTY, Cell.EMPTY] ],
    current_turn := Cell.O }

/-- The board with O threatening to complete the top row, witnessing C6. -/
def gameTwoO : Game :=
  { board := [ [Cell.O, Cell.O, Cell.EMPTY],
               [Cell.X, Cell.X, Cell.EMPTY],
               [Cell.EMPTY, Cell.EMPTY, Cell.EMPTY] ],
    current_turn := Cell.O }

/-- A full drawn board with O nominally to move, witnessing C7. -/
def gameFullDraw : Game :=
  { board := [ [Cell.X, Cell.O, Cell.X],
               [Cell.X, Cell.O, Cell.O],
               [Cell.O, Cell.X, Cell.X] ],
    current_turn := Cell.O }

/-! ### Board access and update lemmas -/

theorem boardGet_eq_some (b : Board) (row col : Nat) (hWF : WF b)
    (hr : row < 3) (hc : col < 3) :
    boardGet b row col = some (cellAt b row col) := by
  obtain ⟨hlen, hrows⟩ := hWF
  have hr2 : row < b.length := by omega
  have hrowEq : b[row]? = some b[row] := List.getElem?_eq_getElem hr2
  have hmem : b[row] ∈ b := List.getElem?_mem hrowEq
  have hc2 : col < (b[row]).length := by rw [hrows _ hmem]; omega
  unfold boardGet cellAt boardGet
  rw [hrowEq]
  simp [List.getElem?_eq_getElem hc2]

theorem boardGet_bounds {b : Board} {row col : Nat} {x : Cell}
    (h : boardGet b row col = some x) :
    ∃ r, b[row]? = some r ∧ row < b.length ∧ col < r.length ∧
      r[col]? = some x := by
  unfold boardGet at h
  cases hrow : b[row]? with
  | none => rw [hrow] at h; simp at h
  | some r =>
    rw [hrow] at h
    simp only [Option.some_bind] at h
    refine ⟨r, rfl, ?_, ?_, h⟩
    · by_contra hc
      have : b[row]? = none := List.getElem?_eq_none (by omega)
      simp [this] at hrow
    · by_contra hc
      have : r[col]? = none := List.getElem?_eq_none (by omega)
      simp [this] at h

theorem cellAt_of_boardGet {b : Board} {row col : Nat} {x : Cell}
    (h : boardGet b row col = some x) : cellAt b row col = x := by
  unfold cellAt; rw [h]; rfl

theorem cellAt_boardSet_self {b : Board} {row col : Nat} {x : Cell}
    (v : Cell) (h : boardGet b row col = some x) :
    cellAt (boardSet b row col v) row col = v := by
  obtain ⟨r, hrow, hrl, hcl, hcol⟩ := boardGet_bounds h
  have hgetD : b.getD row [] = r := by
    simp [List.getD_eq_getElem?_getD, hrow]
  unfold cellAt boardGet boardSet
  rw [hgetD]
  have h1 : (b.set row (r.set col v))[row]? = some (r.set col v) := by
    rw [List.getElem?_set_self' ]
    simp [List.getElem?_eq_getElem hrl, hrow]
  rw [h1]
  have h2 : (r.set col v)[col]? = some v := by
    rw [List.getElem?_set_self' ]
    simp [List.getElem?_eq_getElem hcl, hcol]
  simp [h2]

theorem cellAt_boardSet_ne {b : Board} {row col r2 c2 : Nat} {v : Cell}
    (h : r2 ≠ row ∨ c2 ≠ col) :
    cellAt (boardSet b row col v) r2 c2 = cellAt b r2 c2 := by
  unfold cellAt boardGet boardSet
  rcases h with h | h
  · rw [List.getElem?_set_ne (by omega)]
  · by_cases hr : r2 = row
    · subst hr
      by_cases hlt : r2 < b.length
      · have hb : b[r2]? = some b[r2] := List.getElem?_eq_getElem hlt
        have hgetD : b.getD r2 [] = b[r2] := by
          simp [List.getD_eq_getElem?_getD, hb]
        rw [hgetD]
        have h1 : (b.set r2 ((b[r2]).set col v))[r2]? =
            some ((b[r2]).set col v) := by
          rw [List.getElem?_set_self' ]
          simp [hb]
        rw [h1, hb]
        simp only [Option.some_bind]
        rw [List.getElem?_set_ne (by omega)]
      · have h1 : (b.set r2 ((b.getD r2 []).set col v))[r2]? = none := by
          apply List.getElem?_eq_none; simp; omega
        have h2 : b[r2]? = none := List.getElem?_eq_none (by omega)
        rw [h1, h2]
    · rw [List.getElem?_set_ne (by omega)]

theorem WF_boardSet {b : Board} (row col : Nat) (v : Cell) (hWF : WF b) :
    WF (boardSet b row col v) := by
  obtain ⟨hlen, hrows⟩ := hWF
  by_cases hlt : row < b.length
  · constructor
    · simp [boardSet, hlen]
    · intro r hmem
      rcases List.mem_or_eq_of_mem_set hmem with hmem2 | heq
      · exact hrows r hmem2
      · subst heq
        rw [List.length_set]
        have hb : b[row]? = some b[row] := List.getElem?_eq_getElem hlt
        have : b.getD row [] = b[row] := by
          simp [List.getD_eq_getElem?_getD, hb]
        rw [this]
        exact hrows _ (List.getElem?_mem hb)
  · have hset : boardSet b row col v = b := by
      unfold boardSet
      exact List.set_eq_of_length_le (by omega)
    rw [hset]
    exact ⟨hlen, hrows⟩

/-! ### Counting lemmas -/

theorem count_set_self (l : List Cell) (c : Nat) (v : Cell)
    (hv : v ≠ Cell.EMPTY) (h : l[c]? = some Cell.EMPTY) :
    (l.set c v).count v = l.count v + 1 := by
  induction l generalizing c with
  | nil => simp at h
  | cons x xs ih =>
    cases c with
    | zero =>
      simp at h
      subst h
      simp [List.count_cons, hv, Ne.symm hv]
    | succ n =>
      simp at h
      simp [List.count_cons, ih n h]
      omega

theorem count_set_other (l : List Cell) (c : Nat) (v m : Cell)
    (hm : m ≠ v) (hmE : m ≠ Cell.EMPTY) (h : l[c]? = some Cell.EMPTY) :
    (l.set c v).count m = l.count m := by
  induction l generalizing c with
  | nil => simp at h
  | cons x xs ih =>
    cases c with
    | zero =>
      simp at h
      subst h
      simp [List.count_cons, Ne.symm hm, Ne.symm hmE]
    | succ n =>
      simp at h
      simp [List.count_cons, ih n h]

theorem countMark_boardSet_self {b : Board} {row col : Nat} {v : Cell}
    (hv : v ≠ Cell.EMPTY) (h : boardGet b row col = some Cell.EMPTY) :
    countMark (boardSet b row col v) v = countMark b v + 1 := by
  induction b generalizing row with
  | nil => simp [boardGet] at h
  | cons r rest ih =>
    cases row with
    | zero =>
      have hr : r[col]? = some Cell.EMPTY := by
        simpa [boardGet] using h
      simp [boardSet, countMark, count_set_self r col v hv hr]
      omega
    | succ n =>
      have hrest : boardGet rest n col = some Cell.EMPTY := by
        simpa [boardGet] using h
      have := ih hrest
      simp [boardSet, countMark] at this ⊢
      omega

theorem countMark_boardSet_other {b : Board} {row col : Nat} {v m : Cell}
    (hm : m ≠ v) (hmE : m ≠ Cell.EMPTY)
    (h : boardGet b row col = some Cell.EMPTY) :
    countMark (boardSet b row col v) m = countMark b m := by
  induction b generalizing row with
  | nil => simp [boardGet] at h
  | cons r rest ih =>
    cases row with
    | zero =>
      have hr : r[col]? = some Cell.EMPTY := by
        simpa [boardGet] using h
      simp [boardSet, countMark, count_set_other r col v m hm hmE hr]
    | succ n =>
      have hrest : boardGet rest n col = some Cell.EMPTY := by
        simpa [boardGet] using h
      have := ih hrest
      simp [boardSet, countMark] at this ⊢
      omega

/-! ### Boolean checks versus spec-level predicates -/

theorem check_winner_iff (b : Board) (m : Cell) :
    check_winner b m = true ↔ LineWonBy b m := by
  simp [check_winner, LineWonBy, List.any_eq_true, List.all_eq_true]

theorem check_draw_iff (b : Board) :
    check_draw b = true ↔ boardFull b := by
  simp [check_draw, boardFull, List.all_eq_true, List.mem_range]

/-! ### `make_move` branch lemmas -/

theorem make_move_over {g : Game} (hov : g.game_over = true)
    (row col : Nat) (pc : Cell) :
    make_move g row col pc = some (false, g) := by
  simp [make_move, hov]

theorem make_move_oob {g : Game} (hov : g.game_over = false)
    {row col : Nat} (hget : boardGet g.board row col = none) (pc : Cell) :
    make_move g row col pc = none := by
  simp [make_move, hov, hget]

theorem make_move_occupied {g : Game} (hov : g.game_over = false)
    {row col : Nat} {x : Cell} (hget : boardGet g.board row col = some x)
    (hx : x ≠ Cell.EMPTY) (pc : Cell) :
    make_move g row col pc = some (false, g) := by
  simp [make_move, hov, hget, hx]

theorem make_move_wrong_turn {g : Game} (hov : g.game_over = false)
    {row col : Nat}
    (hget : boardGet g.board row col = some Cell.EMPTY) {pc : Cell}
    (hpc : pc ≠ g.current_turn) :
    make_move g row col pc = some (false, g) := by
  simp [make_move, hov, hget, hpc]

theorem make_move_accepted {g : Game} (hov : g.game_over = false)
    {row col : Nat}
    (hget : boardGet g.board row col = some Cell.EMPTY) {pc : Cell}
    (hpc : pc = g.current_turn) :
    make_move g row col pc =
      (if check_winner (boardSet g.board row col pc) pc then
        some (true, { g with board := boardSet g.board row col pc,
                             game_over := true, winner := some pc })
      else if check_draw (boardSet g.board row col pc) then
        some (true, { g with board := boardSet g.board row col pc,
                             game_over := true, winner := none })
      else
        some (true, { g with board := boardSet g.board row col pc,
                             current_turn :=
                               if g.current_turn = Cell.X then Cell.O
                               else Cell.X })) := by
  subst hpc
  simp [make_move, hov, hget]

theorem make_move_true_inv {g : Game} {row col : Nat} {pc : Cell} {g2 : Game}
    (h : make_move g row col pc = some (true, g2)) :
    g.game_over = false ∧ boardGet g.board row col = some Cell.EMPTY ∧
    pc = g.current_turn ∧ g2.board = boardSet g.board row col pc ∧
    g2.player_x = g.player_x ∧ g2.player_o = g.player_o ∧
    g2.is_vs_bot = g.is_vs_bot ∧
    ((check_winner g2.board pc = true ∧ g2.game_over = true ∧
        g2.winner = some pc ∧ g2.current_turn = g.current_turn) ∨
     (check_winner g2.board pc = false ∧ check_draw g2.board = true ∧
        g2.game_over = true ∧ g2.winner = none ∧
        g2.current_turn = g.current_turn) ∨
     (check_winner g2.board pc = false ∧ check_draw g2.board = false ∧
        g2.game_over = false ∧ g2.winner = g.winner ∧
        g2.current_turn =
          (if g.current_turn = Cell.X then Cell.O else Cell.X))) := by
  by_cases hov : g.game_over = true
  · rw [make_move_over hov] at h
    simp at h
  · have hov2 : g.game_over = false := by
      revert hov; cases g.game_over <;> simp
    cases hget : boardGet g.board row col with
    | none =>
      rw [make_move_oob hov2 hget] at h
      simp at h
    | some x =>
      by_cases hx : x = Cell.EMPTY
      · subst hx
        by_cases hpc : pc = g.current_turn
        · rw [make_move_accepted hov2 hget hpc] at h
          refine ⟨hov2, rfl, hpc, ?_⟩
          by_cases hw : check_winner (boardSet g.board row col pc) pc = true
          · rw [if_pos hw] at h
            simp at h
            rw [← h]
            simp [hw]
          · have hw2 : check_winner (boardSet g.board row col pc) pc = false := by
              revert hw; cases check_winner (boardSet g.board row col pc) pc <;> simp
            rw [if_neg (by simp [hw2])] at h
            by_cases hd : check_draw (boardSet g.board row col pc) = true
            · rw [if_pos hd] at h
              simp at h
              rw [← h]
              simp [hw2, hd]
            · have hd2 : check_draw (boardSet g.board row col pc) = false := by
                revert hd; cases check_draw (boardSet g.board row col pc) <;> simp
              rw [if_neg (by simp [hd2])] at h
              simp at h
              rw [← h]
              simp [hw2, hd2, hov2]
        · rw [make_move_wrong_turn hov2 hget hpc] at h
          simp at h
      · rw [make_move_occupied hov2 hget hx] at h
        simp at h

/-! ### Invariant preservation -/

theorem LineWonBy_of_boardSet {b : Board} {row col : Nat} {v m x : Cell}
    (hget : boardGet b row col = some x) (hm : m ≠ v)
    (h : LineWonBy (boardSet b row col v) m) : LineWonBy b m := by
  obtain ⟨line, hlineMem, hall⟩ := h
  refine ⟨line, hlineMem, fun p hp => ?_⟩
  by_cases hpe : p.1 = row ∧ p.2 = col
  · exfalso
    have hv := hall p hp
    rw [hpe.1, hpe.2, cellAt_boardSet_self v hget] at hv
    exact hm hv.symm
  · have hne : p.1 ≠ row ∨ p.2 ≠ col := by tauto
    rw [← cellAt_boardSet_ne hne]
    exact hall p hp

theorem GameInv_step {g g2 : Game} {row col : Nat} {pc : Cell}
    (hInv : GameInv g) (h : make_move g row col pc = some (true, g2)) :
    GameInv g2 := by
  obtain ⟨hov, hget, hpc, hboard, hpx, hpo, hvb, hcases⟩ := make_move_true_inv h
  obtain ⟨hWF, hturn, hprog, hterm⟩ := hInv
  obtain ⟨hcount, hnoW, hnoF, hwinN⟩ := hprog hov
  have hpcE : pc ≠ Cell.EMPTY := by
    rcases hturn with h1 | h1 <;> rw [hpc, h1] <;> simp
  have hself : countMark g2.board pc = countMark g.board pc + 1 := by
    rw [hboard]; exact countMark_boardSet_self hpcE hget
  have hotherX : pc ≠ Cell.X →
      countMark g2.board Cell.X = countMark g.board Cell.X := by
    intro hne
    rw [hboard]
    exact countMark_boardSet_other (Ne.symm hne) (by simp) hget
  have hotherO : pc ≠ Cell.O →
      countMark g2.board Cell.O = countMark g.board Cell.O := by
    intro hne
    rw [hboard]
    exact countMark_boardSet_other (Ne.symm hne) (by simp) hget
  have hWF2 : WF g2.board := by
    rw [hboard]; exact WF_boardSet row col pc hWF
  have hcount2 : (pc = Cell.X ∧
        countMark g2.board Cell.X = countMark g2.board Cell.O + 1) ∨
      (pc = Cell.O ∧
        countMark g2.board Cell.X = countMark g2.board Cell.O) := by
    rcases hcount with ⟨h1, h2⟩ | ⟨h1, h2⟩
    · left
      have hpx2 : pc = Cell.X := by rw [hpc, h1]
      have e1 := hself
      rw [hpx2] at e1
      have e2 := hotherO (by rw [hpx2]; simp)
      exact ⟨hpx2, by omega⟩
    · right
      have hpo2 : pc = Cell.O := by rw [hpc, h1]
      have e1 := hself
      rw [hpo2] at e1
      have e2 := hotherX (by rw [hpo2]; simp)
      exact ⟨hpo2, by omega⟩
  have hNoWonOther : ∀ m, m ≠ pc → (m = Cell.X ∨ m = Cell.O) →
      ¬ LineWonBy g2.board m := by
    intro m hm hXO hwon
    rw [hboard] at hwon
    have hwonOld : LineWonBy g.board m := LineWonBy_of_boardSet hget hm hwon
    apply hnoW
    rcases hXO with hh | hh
    · exact Or.inl (hh ▸ hwonOld)
    · exact Or.inr (hh ▸ hwonOld)
  have hpcXO : pc = Cell.X ∨ pc = Cell.O := by
    rcases hturn with h1 | h1
    · exact Or.inl (by rw [hpc, h1])
    · exact Or.inr (by rw [hpc, h1])
  rcases hcases with ⟨hw, hgo, hwin2, hct⟩ | ⟨hw, hd, hgo, hwin2, hct⟩ |
      ⟨hw, hd, hgo, hwin2, hct⟩
  · -- win branch
    refine ⟨hWF2, by rw [hct]; exact hturn, ?_, ?_⟩
    · intro hov2; rw [hgo] at hov2; cases hov2
    · intro _
      refine ⟨by rcases hcount2 with ⟨_, e⟩ | ⟨_, e⟩ <;> omega, ?_, ?_⟩
      · intro m hm
        rw [hwin2] at hm
        injection hm with hm
        subst hm
        exact ⟨(check_winner_iff g2.board pc).mp hw, hpcXO⟩
      · intro hnone; rw [hwin2] at hnone; cases hnone
  · -- draw branch
    have hnpc : ¬ LineWonBy g2.board pc := by
      intro hby
      rw [← check_winner_iff] at hby
      rw [hw] at hby
      cases hby
    have hnoW2 : ¬ LineWonAny g2.board := by
      intro hany
      rcases hany with hh | hh
      · by_cases hx : Cell.X = pc
        · exact hnpc (hx ▸ hh)
        · exact hNoWonOther Cell.X hx (Or.inl rfl) hh
      · by_cases hx : Cell.O = pc
        · exact hnpc (hx ▸ hh)
        · exact hNoWonOther Cell.O hx (Or.inr rfl) hh
    refine ⟨hWF2, by rw [hct]; exact hturn, ?_, ?_⟩
    · intro hov2; rw [hgo] at hov2; cases hov2
    · intro _
      refine ⟨by rcases hcount2 with ⟨_, e⟩ | ⟨_, e⟩ <;> omega, ?_, ?_⟩
      · intro m hm; rw [hwin2] at hm; cases hm
      · intro _
        exact ⟨(check_draw_iff g2.board).mp hd, hnoW2⟩
  · -- game continues
    have hnpc : ¬ LineWonBy g2.board pc := by
      intro hby
      rw [← check_winner_iff] at hby
      rw [hw] at hby
      cases hby
    have hnoW2 : ¬ LineWonAny g2.board := by
      intro hany
      rcases hany with hh | hh
      · by_cases hx : Cell.X = pc
        · exact hnpc (hx ▸ hh)
        · exact hNoWonOther Cell.X hx (Or.inl rfl) hh
      · by_cases hx : Cell.O = pc
        · exact hnpc (hx ▸ hh)
        · exact hNoWonOther Cell.O hx (Or.inr rfl) hh
    have hnoF2 : ¬ boardFull g2.board := by
      intro hf
      rw [← check_draw_iff] at hf
      rw [hd] at hf
      cases hf
    refine ⟨hWF2, ?_, ?_, ?_⟩
    · rw [hct]
      by_cases hx : g.current_turn = Cell.X
      · rw [if_pos hx]; exact Or.inr rfl
      · rw [if_neg hx]; exact Or.inl rfl
    · intro _
      refine ⟨?_, hnoW2, hnoF2, by rw [hwin2]; exact hwinN⟩
      rcases hcount2 with ⟨h1, e⟩ | ⟨h1, e⟩
      · right
        constructor
        · rw [hct, if_pos (by rw [← hpc, h1])]
        · exact e
      · left
        constructor
        · have hgo2 : g.current_turn = Cell.O := by rw [← hpc, h1]
          rw [hct, if_neg (by rw [hgo2]; simp)]
        · exact e
    · intro hov2; rw [hgo] at hov2; cases hov2

theorem GameInv_fresh (px po : Option Player) (vb : Bool) :
    GameInv (mkFresh px po vb) := by
  have hb : (mkFresh px po vb).board = initialBoard := rfl
  have hct : (mkFresh px po vb).current_turn = Cell.X := rfl
  have hgo : (mkFresh px po vb).game_over = false := rfl
  have hwn : (mkFresh px po vb).winner = none := rfl
  refine ⟨?_, ?_, ?_, ?_⟩
  · rw [hb]; decide
  · rw [hct]; exact Or.inl rfl
  · intro _
    refine ⟨Or.inl ⟨?_, ?_⟩, ?_, ?_, ?_⟩
    · rw [hct]
    · rw [hb]; decide
    · rw [hb]; decide
    · rw [hb]; decide
    · rw [hwn]
  · intro hcontra
    rw [hgo] at hcontra
    cases hcontra

theorem GameInv_of_Reachable {g : Game} (h : Reachable g) : GameInv g := by
  induction h with
  | fresh px po vb => exact GameInv_fresh px po vb
  | step g g2 row col pc hreach hmv ih => exact GameInv_step ih hmv

theorem make_move_false_inv {g : Game} {row col : Nat} {pc : Cell}
    {g2 : Game} (h : make_move g row col pc = some (false, g2)) : g2 = g := by
  by_cases hov : g.game_over = true
  · rw [make_move_over hov] at h
    simp at h
    exact h.symm
  · have hov2 : g.game_over = false := by
      revert hov; cases g.game_over <;> simp
    cases hget : boardGet g.board row col with
    | none =>
      rw [make_move_oob hov2 hget] at h
      cases h
    | some x =>
      by_cases hx : x = Cell.EMPTY
      · subst hx
        by_cases hpc : pc = g.current_turn
        · rw [make_move_accepted hov2 hget hpc] at h
          split at h
          · simp at h
          · split at h <;> simp at h
        · rw [make_move_wrong_turn hov2 hget hpc] at h
          simp at h
          exact h.symm
      · rw [make_move_occupied hov2 hget hx] at h
        simp at h
        exact h.symm

/-- C4: once `game_over` is true, `make_move` rejects every call — any row,
column (in range or not) and mark — without touching the board (no index is
read, so no `IndexError` is possible), and the returned state is the input
state itself, so the terminal flag never reverts to false. -/
theorem C4_terminal_rejects_all (g : Game) (row col : Nat) (pc : Cell)
    (h : g.game_over = true) :
    make_move g row col pc = some (false, g) ∧
    ∀ res, make_move g row col pc = some res → res.2.game_over = true := by
  refine ⟨make_move_over h row col pc, fun res hres => ?_⟩
  rw [make_move_over h row col pc] at hres
  injection hres with hres
  rw [← hres]
  exact h


theorem C4_witness :
    gameOverWitness.game_over = true ∧
    make_move gameOverWitness 5 7 Cell.O = some (false, gameOverWitness) :=
  ⟨rfl, (C4_terminal_rejects_all gameOverWitness 5 7 Cell.O rfl).1⟩

/-- C3: for any game with a well-formed board and in-range coordinates,
`make_move` returns a rejection leaving the state identical to the input
exactly when the game is over, the target cell is occupied, or the mark is
not the current turn; on the same state the identical call therefore
rejects again with no further effect. -/
theorem C3_rejection_iff (g : Game) (row col : Nat) (pc : Cell)
    (hWF : WF g.board) (hr : row < 3) (hc : col < 3) :
    make_move g row col pc = some (false, g) ↔
      (g.game_over = true ∨ cellAt g.board row col ≠ Cell.EMPTY ∨
        pc ≠ g.current_turn) := by
  constructor
  · intro h
    by_contra hcon
    push_neg at hcon
    obtain ⟨hov, hcell, hpc⟩ := hcon
    have hov2 : g.game_over = false := by
      revert hov; cases g.game_over <;> simp
    have hget := boardGet_eq_some g.board row col hWF hr hc
    rw [hcell] at hget
    rw [make_move_accepted hov2 hget hpc] at h
    split at h
    · simp at h
    · split at h <;> simp at h
  · intro hcond
    by_cases hov : g.game_over = true
    · exact make_move_over hov row col pc
    · have hov2 : g.game_over = false := by
        revert hov; cases g.game_over <;> simp
      have hget := boardGet_eq_some g.board row col hWF hr hc
      by_cases hcell : cellAt g.board row col = Cell.EMPTY
      · have hpc : pc ≠ g.current_turn := by
          rcases hcond with h1 | h1 | h1
          · exact absurd h1 hov
          · exact absurd hcell h1
          · exact h1
        rw [hcell] at hget
        exact make_move_wrong_turn hov2 hget hpc
      · exact make_move_occupied hov2 hget hcell pc

theorem C3_witness :
    WF (mkFresh none none false).board ∧
    (make_move (mkFresh none none false) 0 0 Cell.O =
        some (false, mkFresh none none false) ↔
      ((mkFresh none none false).game_over = true ∨
        cellAt (mkFresh none none false).board 0 0 ≠ Cell.EMPTY ∨
        Cell.O ≠ (mkFresh none none false).current_turn)) :=
  ⟨by decide, C3_rejection_iff (mkFresh none none false) 0 0 Cell.O
    (by decide) (by decide) (by decide)⟩

/-- C5: in every reachable state the number of X marks equals the number of
O marks or exceeds it by exactly one. -/
theorem C5_mark_balance (g : Game) (h : Reachable g) :
    countMark g.board Cell.X = countMark g.board Cell.O ∨
    countMark g.board Cell.X = countMark g.board Cell.O + 1 := by
  obtain ⟨hWF, hturn, hprog, hterm⟩ := GameInv_of_Reachable h
  by_cases hov : g.game_over = true
  · exact (hterm hov).1
  · have hov2 : g.game_over = false := by
      revert hov; cases g.game_over <;> simp
    rcases (hprog hov2).1 with ⟨_, e⟩ | ⟨_, e⟩
    · exact Or.inl e
    · exact Or.inr e

theorem C5_witness :
    countMark (mkFresh none none false).board Cell.X =
      countMark (mkFresh none none false).board Cell.O ∨
    countMark (mkFresh none none false).board Cell.X =
      countMark (mkFresh none none false).board Cell.O + 1 :=
  C5_mark_balance (mkFresh none none false)
    (Reachable.fresh none none false)

/-- C9: in every reachable state the turn marker is X or O, never EMPTY,
and consequently `make_move` with the EMPTY mark on any in-range cell is
rejected with the state unchanged. -/
theorem C9_empty_mark_rejected (g : Game) (h : Reachable g) :
    (g.current_turn = Cell.X ∨ g.current_turn = Cell.O) ∧
    ∀ row col, row < 3 → col < 3 →
      make_move g row col Cell.EMPTY = some (false, g) := by
  obtain ⟨hWF, hturn, hprog, hterm⟩ := GameInv_of_Reachable h
  refine ⟨hturn, fun row col hr hc => ?_⟩
  by_cases hov : g.game_over = true
  · exact make_move_over hov row col Cell.EMPTY
  · have hov2 : g.game_over = false := by
      revert hov; cases g.game_over <;> simp
    have hget := boardGet_eq_some g.board row col hWF hr hc
    by_cases hcell : cellAt g.board row col = Cell.EMPTY
    · rw [hcell] at hget
      apply make_move_wrong_turn hov2 hget
      rcases hturn with h1 | h1 <;> rw [h1] <;> simp
    · exact make_move_occupied hov2 hget hcell Cell.EMPTY

theorem C9_witness :
    ((mkFresh none none false).current_turn = Cell.X ∨
      (mkFresh none none false).current_turn = Cell.O) ∧
    ∀ row col, row < 3 → col < 3 →
      make_move (mkFresh none none false) row col Cell.EMPTY =
        some (false, mkFresh none none false) :=
  C9_empty_mark_rejected (mkFresh none none false)
    (Reachable.fresh none none false)

/-- C10: any returned `make_move` call (accepted or rejected) leaves the
player bindings and the vs-bot flag unchanged and modifies no board cell
other than the addressed one; a rejected call changes nothing at all. -/
theorem C10_move_frame (g : Game) (row col : Nat) (pc : Cell) (ok : Bool)
    (g2 : Game) (h : make_move g row col pc = some (ok, g2)) :
    g2.player_x = g.player_x ∧ g2.player_o = g.player_o ∧
    g2.is_vs_bot = g.is_vs_bot ∧
    (∀ r2 c2, (r2 ≠ row ∨ c2 ≠ col) →
      cellAt g2.board r2 c2 = cellAt g.board r2 c2) ∧
    (ok = false → g2 = g) := by
  cases ok with
  | false =>
    have heq := make_move_false_inv h
    subst heq
    exact ⟨rfl, rfl, rfl, fun _ _ _ => rfl, fun _ => rfl⟩
  | true =>
    obtain ⟨hov, hget, hpc, hboard, hpx, hpo, hvb, _⟩ := make_move_true_inv h
    refine ⟨hpx, hpo, hvb, fun r2 c2 hne => ?_, fun hf => by cases hf⟩
    rw [hboard]
    exact cellAt_boardSet_ne hne


theorem C10_witness :
    make_move (mkFresh none none false) 0 0 Cell.X =
      some (true, gameAfterX00) ∧
    (gameAfterX00.player_x = (mkFresh none none false).player_x ∧
     gameAfterX00.player_o = (mkFresh none none false).player_o ∧
     gameAfterX00.is_vs_bot = (mkFresh none none false).is_vs_bot ∧
     (∀ r2 c2, (r2 ≠ 0 ∨ c2 ≠ 0) →
       cellAt gameAfterX00.board r2 c2 =
         cellAt (mkFresh none none false).board r2 c2) ∧
     (true = false → gameAfterX00 = mkFresh none none false)) :=
  ⟨by decide, C10_move_frame (mkFresh none none false) 0 0 Cell.X true
    gameAfterX00 (by decide)⟩

/-- C8: `bot_move` has no side effects — the game state it returns is the
input state, unchanged in every field, whatever the game and whatever the
shuffles of the corner and edge lists. -/
theorem C8_bot_move_pure (g : Game)
    (cornersShuffled edgesShuffled : List (Nat × Nat)) :
    (bot_move g cornersShuffled edgesShuffled).2 = g := by
  unfold bot_move
  split
  · rfl
  · split
    · rfl
    · split
      · rfl
      · split
        · rfl
        · split
          · rfl
          · split
            · rfl
            · rfl

/-- C1: a move with the current turn's mark into an empty in-range cell of
a live game is accepted: the mark is written to that cell, and then — win
check first, draw check second — the game either ends won by that mark,
ends drawn with no winner when the board is full, or continues with the
turn flipped to the other mark. -/
theorem C1_accepted_move (g : Game) (row col : Nat) (pc : Cell)
    (hWF : WF g.board) (hov : g.game_over = false) (hr : row < 3)
    (hc : col < 3) (hpc : pc = g.current_turn)
    (hemp : cellAt g.board row col = Cell.EMPTY) :
    ∃ g2, make_move g row col pc = some (true, g2) ∧
      g2.board = boardSet g.board row col pc ∧
      cellAt g2.board row col = pc ∧
      (LineWonBy g2.board pc → g2.game_over = true ∧ g2.winner = some pc) ∧
      (¬ LineWonBy g2.board pc → boardFull g2.board →
        g2.game_over = true ∧ g2.winner = none) ∧
      (¬ LineWonBy g2.board pc → ¬ boardFull g2.board →
        g2.game_over = false ∧ g2.winner = g.winner ∧
        (pc = Cell.X → g2.current_turn = Cell.O) ∧
        (pc = Cell.O → g2.current_turn = Cell.X)) := by
  have hget : boardGet g.board row col = some Cell.EMPTY := by
    rw [boardGet_eq_some g.board row col hWF hr hc, hemp]
  have hmm := make_move_accepted hov hget hpc
  by_cases hw : check_winner (boardSet g.board row col pc) pc = true
  · rw [if_pos hw] at hmm
    refine ⟨_, hmm, rfl, cellAt_boardSet_self pc hget, ?_, ?_, ?_⟩
    · intro _; exact ⟨rfl, rfl⟩
    · intro hnw _
      exact absurd ((check_winner_iff _ pc).mp hw) hnw
    · intro hnw _
      exact absurd ((check_winner_iff _ pc).mp hw) hnw
  · have hw2 : check_winner (boardSet g.board row col pc) pc = false := by
      revert hw; cases check_winner (boardSet g.board row col pc) pc <;> simp
    rw [if_neg (by simp [hw2])] at hmm
    by_cases hd : check_draw (boardSet g.board row col pc) = true
    · rw [if_pos hd] at hmm
      refine ⟨_, hmm, rfl, cellAt_boardSet_self pc hget, ?_, ?_, ?_⟩
      · intro hwon
        rw [← check_winner_iff] at hwon
        rw [hw2] at hwon
        cases hwon
      · intro _ _; exact ⟨rfl, rfl⟩
      · intro _ hnf
        exact absurd ((check_draw_iff _).mp hd) hnf
    · have hd2 : check_draw (boardSet g.board row col pc) = false := by
        revert hd; cases check_draw (boardSet g.board row col pc) <;> simp
      rw [if_neg (by simp [hd2])] at hmm
      refine ⟨_, hmm, rfl, cellAt_boardSet_self pc hget, ?_, ?_, ?_⟩
      · intro hwon
        rw [← check_winner_iff] at hwon
        rw [hw2] at hwon
        cases hwon
      · intro _ hfull
        rw [← check_draw_iff] at hfull
        rw [hd2] at hfull
        cases hfull
      · intro _ _
        refine ⟨hov, rfl, ?_, ?_⟩
        · intro hpx
          have : g.current_turn = Cell.X := by rw [← hpc, hpx]
          show (if g.current_turn = Cell.X then Cell.O else Cell.X) = Cell.O
          rw [if_pos this]
        · intro hpo
          have : g.current_turn = Cell.O := by rw [← hpc, hpo]
          show (if g.current_turn = Cell.X then Cell.O else Cell.X) = Cell.X
          rw [if_neg (by rw [this]; simp)]
  -- all cases covered

theorem C1_witness :
    (WF (mkFresh none none false).board ∧
      (mkFresh none none false).game_over = false ∧
      Cell.X = (mkFresh none none false).current_turn ∧
      cellAt (mkFresh none none false).board 0 0 = Cell.EMPTY) ∧
    ∃ g2, make_move (mkFresh none none false) 0 0 Cell.X =
        some (true, g2) ∧
      g2.board = boardSet (mkFresh none none false).board 0 0 Cell.X ∧
      cellAt g2.board 0 0 = Cell.X ∧
      (LineWonBy g2.board Cell.X →
        g2.game_over = true ∧ g2.winner = some Cell.X) ∧
      (¬ LineWonBy g2.board Cell.X → boardFull g2.board →
        g2.game_over = true ∧ g2.winner = none) ∧
      (¬ LineWonBy g2.board Cell.X → ¬ boardFull g2.board →
        g2.game_over = false ∧ g2.winner = (mkFresh none none false).winner ∧
        (Cell.X = Cell.X → g2.current_turn = Cell.O) ∧
        (Cell.X = Cell.O → g2.current_turn = Cell.X)) :=
  ⟨⟨by decide, rfl, rfl, by decide⟩,
    C1_accepted_move (mkFresh none none false) 0 0 Cell.X (by decide) rfl
      (by decide) (by decide) rfl (by decide)⟩


/-- C2: after any accepted move from a reachable state, the game is
terminal with a winner exactly when some winning line is monochromatic in
a non-empty mark, and terminal as a draw exactly when all nine cells are
occupied and no such line exists — even though the code only scans lines
for the mark just played. -/
theorem C2_terminal_characterisation (g : Game) (row col : Nat) (pc : Cell)
    (g2 : Game) (hreach : Reachable g)
    (h : make_move g row col pc = some (true, g2)) :
    ((g2.game_over = true ∧ g2.winner ≠ none) ↔ LineWonAny g2.board) ∧
    ((g2.game_over = true ∧ g2.winner = none) ↔
      (boardFull g2.board ∧ ¬ LineWonAny g2.board)) := by
  have hreach2 : Reachable g2 := Reachable.step g g2 row col pc hreach h
  obtain ⟨hWF, hturn, hprog, hterm⟩ := GameInv_of_Reachable hreach2
  constructor
  · constructor
    · rintro ⟨hgo, hwn⟩
      cases hwinner : g2.winner with
      | none => exact absurd hwinner hwn
      | some m =>
        obtain ⟨hwon, hXO⟩ := (hterm hgo).2.1 m hwinner
        rcases hXO with hh | hh
        · exact Or.inl (hh ▸ hwon)
        · exact Or.inr (hh ▸ hwon)
    · intro hany
      by_cases hgo : g2.game_over = true
      · refine ⟨hgo, ?_⟩
        intro hwn
        exact absurd hany ((hterm hgo).2.2 hwn).2
      · have hgo2 : g2.game_over = false := by
          revert hgo; cases g2.game_over <;> simp
        exact absurd hany ((hprog hgo2).2.1)
  · constructor
    · rintro ⟨hgo, hwn⟩
      exact (hterm hgo).2.2 hwn
    · rintro ⟨hfull, hnone⟩
      by_cases hgo : g2.game_over = true
      · refine ⟨hgo, ?_⟩
        cases hwinner : g2.winner with
        | none => rfl
        | some m =>
          obtain ⟨hwon, hXO⟩ := (hterm hgo).2.1 m hwinner
          exfalso
          apply hnone
          rcases hXO with hh | hh
          · exact Or.inl (hh ▸ hwon)
          · exact Or.inr (hh ▸ hwon)
      · have hgo2 : g2.game_over = false := by
          revert hgo; cases g2.game_over <;> simp
        exact absurd hfull ((hprog hgo2).2.2.1)

theorem C2_witness :
    ((gameAfterX11.game_over = true ∧ gameAfterX11.winner ≠ none) ↔
      LineWonAny gameAfterX11.board) ∧
    ((gameAfterX11.game_over = true ∧ gameAfterX11.winner = none) ↔
      (boardFull gameAfterX11.board ∧ ¬ LineWonAny gameAfterX11.board)) :=
  C2_terminal_characterisation (mkFresh none none false) 1 1 Cell.X
    gameAfterX11 (Reachable.fresh none none false) (by decide)


theorem listIndex_some_spec {α : Type} [BEq α] [LawfulBEq α] (a : α) :
    ∀ (l : List α) (i : Nat), listIndex a l = some i → l[i]? = some a := by
  intro l
  induction l with
  | nil => intro i h; simp [listIndex] at h
  | cons x xs ih =>
    intro i h
    unfold listIndex at h
    by_cases hx : x == a
    · rw [if_pos hx] at h
      injection h with h
      subst h
      simp [eq_of_beq hx]
    · rw [if_neg hx] at h
      cases hr : listIndex a xs with
      | none => rw [hr] at h; simp at h
      | some j =>
        rw [hr] at h
        simp at h
        subst h
        simpa using ih j hr

theorem listIndex_of_mem {α : Type} [BEq α] [LawfulBEq α] (a : α) :
    ∀ (l : List α), a ∈ l → ∃ i, listIndex a l = some i := by
  intro l
  induction l with
  | nil => intro h; cases h
  | cons x xs ih =>
    intro h
    by_cases hx : x == a
    · exact ⟨0, by simp [listIndex, hx]⟩
    · have hmem : a ∈ xs := by
        cases h with
        | head => exact absurd (beq_self_eq_true a) hx
        | tail _ h2 => exact h2
      obtain ⟨j, hj⟩ := ih hmem
      exact ⟨j + 1, by simp [listIndex, hx, hj]⟩

theorem getElem?_count_unique {α : Type} [DecidableEq α] {a : α} :
    ∀ (l : List α) (i j : Nat), l.count a = 1 → l[i]? = some a →
      l[j]? = some a → i = j := by
  intro l
  induction l with
  | nil => intro i j _ hi _; simp at hi
  | cons x xs ih =>
    intro i j hcount hi hj
    rw [List.count_cons] at hcount
    by_cases hx : x = a
    · have hxs : xs.count a = 0 := by
        rw [if_pos (by simp [hx])] at hcount
        omega
      have hnot : a ∉ xs := List.count_eq_zero.mp hxs
      cases i with
      | zero =>
        cases j with
        | zero => rfl
        | succ n =>
          exfalso
          exact hnot (List.getElem?_mem (by simpa using hj))
      | succ n =>
        exfalso
        exact hnot (List.getElem?_mem (by simpa using hi))
    · have hcount2 : xs.count a = 1 := by
        rw [if_neg (by simp [hx])] at hcount
        omega
      cases i with
      | zero => simp at hi; exact absurd hi hx
      | succ n =>
        cases j with
        | zero => simp at hj; exact absurd hj hx
        | succ n2 =>
          have := ih n n2 hcount2 (by simpa using hi) (by simpa using hj)
          omega

theorem lineMove_eq_none {b : Board} {m : Cell} {line : List (Nat × Nat)}
    (hn : ¬ twoOneEmpty b m line) : lineMove b m line = none := by
  unfold twoOneEmpty at hn
  unfold lineMove
  rw [if_neg hn]

theorem lineMove_eq_some {b : Board} {m : Cell} {line : List (Nat × Nat)}
    {p : Nat × Nat} (hline : twoOneEmpty b m line) (hp : p ∈ line)
    (hpe : cellAt b p.1 p.2 = Cell.EMPTY) : lineMove b m line = some p := by
  obtain ⟨hc2, hc1⟩ := hline
  have hmem : Cell.EMPTY ∈ line.map fun q => cellAt b q.1 q.2 := by
    rw [← List.count_pos_iff]
    omega
  obtain ⟨idx, hidx⟩ := listIndex_of_mem Cell.EMPTY _ hmem
  have hcsidx : (line.map fun q => cellAt b q.1 q.2)[idx]? =
      some Cell.EMPTY := listIndex_some_spec Cell.EMPTY _ idx hidx
  obtain ⟨i, hi⟩ := List.mem_iff_getElem?.mp hp
  have hcsi : (line.map fun q => cellAt b q.1 q.2)[i]? =
      some Cell.EMPTY := by
    rw [List.getElem?_map, hi]
    simp [hpe]
  have hieq : i = idx := getElem?_count_unique _ i idx hc1 hcsi hcsidx
  subst hieq
  unfold lineMove
  rw [if_pos ⟨hc2, hc1⟩, hidx]
  simp [List.get?_eq_getElem?, hi]

theorem find_winning_move_first {b : Board} {m : Cell}
    {pre suf : List (List (Nat × Nat))} {line : List (Nat × Nat)}
    {p : Nat × Nat} (hsplit : WIN_LINES = pre ++ line :: suf)
    (hpre : ∀ l ∈ pre, ¬ twoOneEmpty b m l)
    (hline : twoOneEmpty b m line) (hp : p ∈ line)
    (hpe : cellAt b p.1 p.2 = Cell.EMPTY) :
    find_winning_move b m = some p := by
  unfold find_winning_move
  rw [hsplit, List.findSome?_append]
  have h1 : pre.findSome? (lineMove b m) = none := by
    rw [List.findSome?_eq_none_iff]
    intro l hl
    exact lineMove_eq_none (hpre l hl)
  rw [h1, List.findSome?_cons, lineMove_eq_some hline hp hpe]
  rfl

theorem find_winning_move_some {b : Board} {m : Cell} {p : Nat × Nat}
    (h : find_winning_move b m = some p) :
    cellAt b p.1 p.2 = Cell.EMPTY ∧ p.1 < 3 ∧ p.2 < 3 := by
  unfold find_winning_move at h
  obtain ⟨line, hmem, hlm⟩ := List.exists_of_findSome?_eq_some h
  unfold lineMove at hlm
  split at hlm
  · cases hidx : listIndex Cell.EMPTY (line.map fun q => cellAt b q.1 q.2) with
    | none => rw [hidx] at hlm; cases hlm
    | some idx =>
      rw [hidx] at hlm
      have hcs := listIndex_some_spec Cell.EMPTY _ idx hidx
      simp only [List.get?_eq_getElem?] at hlm
      rw [List.getElem?_map, hlm] at hcs
      simp at hcs
      have hpline : p ∈ line := List.getElem?_mem hlm
      have hbounds : ∀ l ∈ WIN_LINES, ∀ q ∈ l, q.1 < 3 ∧ q.2 < 3 := by decide
      exact ⟨hcs, (hbounds line hmem p hpline).1, (hbounds line hmem p hpline).2⟩
  · cases hlm

/-- C6: in a live game with O to move, if some winning line holds exactly
two O marks and one empty cell, `bot_move` plays the empty cell of the
first such line in `WIN_LINES` order (rows top-to-bottom, then columns
left-to-right, then the two diagonals), before any blocking, centre,
corner or edge rule and regardless of how corners and edges were
shuffled. -/
theorem C6_win_now_priority (g : Game)
    (cornersShuffled edgesShuffled : List (Nat × Nat))
    (pre suf : List (List (Nat × Nat))) (line : List (Nat × Nat))
    (p : Nat × Nat) (hov : g.game_over = false)
    (hturn : g.current_turn = Cell.O)
    (hsplit : WIN_LINES = pre ++ line :: suf)
    (hpre : ∀ l ∈ pre, ¬ twoOneEmpty g.board Cell.O l)
    (hline : twoOneEmpty g.board Cell.O line) (hp : p ∈ line)
    (hpe : cellAt g.board p.1 p.2 = Cell.EMPTY) :
    (bot_move g cornersShuffled edgesShuffled).1 = some p := by
  have hfind : find_winning_move g.board Cell.O = some p :=
    find_winning_move_first hsplit hpre hline hp hpe
  unfold bot_move
  rw [if_neg (by simp [hov, hturn]), hfind]


theorem C6_witness :
    twoOneEmpty gameTwoO.board Cell.O [(0, 0), (0, 1), (0, 2)] ∧
    (bot_move gameTwoO corners edges).1 = some (0, 2) :=
  ⟨by decide,
    C6_win_now_priority gameTwoO corners edges []
      [ [(1, 0), (1, 1), (1, 2)],
        [(2, 0), (2, 1), (2, 2)],
        [(0, 0), (1, 0), (2, 0)],
        [(0, 1), (1, 1), (2, 1)],
        [(0, 2), (1, 2), (2, 2)],
        [(0, 0), (1, 1), (2, 2)],
        [(0, 2), (1, 1), (2, 0)] ]
      [(0, 0), (0, 1), (0, 2)] (0, 2) rfl rfl rfl
      (by intro l hl; cases hl) (by decide) (by decide) (by decide)⟩

/-- C7: with O to move and the corner and edge lists shuffled arbitrarily,
`bot_move` produces no coordinate exactly when the game is already over or
no empty cell remains; equivalently, on a live board it returns some
coordinate whenever an empty cell exists. -/
theorem C7_selector_totality (g : Game)
    (cornersShuffled edgesShuffled : List (Nat × Nat))
    (hcs : List.Perm cornersShuffled corners)
    (hes : List.Perm edgesShuffled edges)
    (hturn : g.current_turn = Cell.O) :
    (bot_move g cornersShuffled edgesShuffled).1 = none ↔
      (g.game_over = true ∨
        ∀ r, r < 3 → ∀ c, c < 3 → cellAt g.board r c ≠ Cell.EMPTY) := by
  have hcornerBounds : ∀ q ∈ corners, q.1 < 3 ∧ q.2 < 3 := by decide
  have hedgeBounds : ∀ q ∈ edges, q.1 < 3 ∧ q.2 < 3 := by decide
  by_cases hov : g.game_over = true
  · constructor
    · intro _; exact Or.inl hov
    · intro _
      unfold bot_move
      rw [if_pos (by simp [hov])]
  · have hov2 : g.game_over = false := by
      revert hov; cases g.game_over <;> simp
    unfold bot_move
    rw [if_neg (by simp [hov2, hturn])]
    cases hfO : find_winning_move g.board Cell.O with
    | some p =>
      obtain ⟨hpe, hp1, hp2⟩ := find_winning_move_some hfO
      change some p = none ↔ _
      constructor
      · intro hcon; simp at hcon
      · rintro (h1 | h1)
        · exact absurd h1 hov
        · exact absurd hpe (h1 p.1 hp1 p.2 hp2)
    | none =>
      cases hfX : find_winning_move g.board Cell.X with
      | some p =>
        obtain ⟨hpe, hp1, hp2⟩ := find_winning_move_some hfX
        change some p = none ↔ _
        constructor
        · intro hcon; simp at hcon
        · rintro (h1 | h1)
          · exact absurd h1 hov
          · exact absurd hpe (h1 p.1 hp1 p.2 hp2)
      | none =>
        by_cases hcenter : cellAt g.board 1 1 = Cell.EMPTY
        · rw [if_pos hcenter]
          change some (1, 1) = none ↔ _
          constructor
          · intro hcon; simp at hcon
          · rintro (h1 | h1)
            · exact absurd h1 hov
            · exact absurd hcenter (h1 1 (by omega) 1 (by omega))
        · rw [if_neg hcenter]
          cases hfc : cornersShuffled.find?
              (fun q => cellAt g.board q.1 q.2 == Cell.EMPTY) with
          | some p =>
            have hpe : cellAt g.board p.1 p.2 = Cell.EMPTY := by
              have := List.find?_some hfc
              simpa using this
            have hpc : p ∈ corners :=
              hcs.mem_iff.mp (List.mem_of_find?_eq_some hfc)
            obtain ⟨hp1, hp2⟩ := hcornerBounds p hpc
            change some p = none ↔ _
            constructor
            · intro hcon; simp at hcon
            · rintro (h1 | h1)
              · exact absurd h1 hov
              · exact absurd hpe (h1 p.1 hp1 p.2 hp2)
          | none =>
            cases hfe : edgesShuffled.find?
                (fun q => cellAt g.board q.1 q.2 == Cell.EMPTY) with
            | some p =>
              have hpe : cellAt g.board p.1 p.2 = Cell.EMPTY := by
                have := List.find?_some hfe
                simpa using this
              have hpc : p ∈ edges :=
                hes.mem_iff.mp (List.mem_of_find?_eq_some hfe)
              obtain ⟨hp1, hp2⟩ := hedgeBounds p hpc
              change some p = none ↔ _
              constructor
              · intro hcon; simp at hcon
              · rintro (h1 | h1)
                · exact absurd h1 hov
                · exact absurd hpe (h1 p.1 hp1 p.2 hp2)
            | none =>
              have hcor : ∀ q ∈ corners,
                  cellAt g.board q.1 q.2 ≠ Cell.EMPTY := by
                intro q hq
                have hq2 : q ∈ cornersShuffled := hcs.mem_iff.mpr hq
                have h3 := List.find?_eq_none.mp hfc q hq2
                simpa using h3
              have hedg : ∀ q ∈ edges,
                  cellAt g.board q.1 q.2 ≠ Cell.EMPTY := by
                intro q hq
                have hq2 : q ∈ edgesShuffled := hes.mem_iff.mpr hq
                have h3 := List.find?_eq_none.mp hfe q hq2
                simpa using h3
              change (none : Option (Nat × Nat)) = none ↔ _
              constructor
              · intro _
                right
                intro r hr c hc
                interval_cases r <;> interval_cases c
                · exact hcor (0, 0) (by decide)
                · exact hedg (0, 1) (by decide)
                · exact hcor (0, 2) (by decide)
                · exact hedg (1, 0) (by decide)
                · exact hcenter
                · exact hedg (1, 2) (by decide)
                · exact hcor (2, 0) (by decide)
                · exact hedg (2, 1) (by decide)
                · exact hcor (2, 2) (by decide)
              · intro _; rfl


theorem C7_witness :
    (bot_move gameFullDraw corners edges).1 = none ↔
      (gameFullDraw.game_over = true ∨
        ∀ r, r < 3 → ∀ c, c < 3 →
          cellAt gameFullDraw.board r c ≠ Cell.EMPTY) :=
  C7_selector_totality gameFullDraw corners edges (List.Perm.refl corners)
    (List.Perm.refl edges) rfl
